import Mathlib

/-!
A verification development for the rendering engine in `src/src/Canvas.js`
(the `Canvas` class of the artistoo repository).

The JavaScript methods are shallowly embedded as Lean functions:

* raw pixel-buffer writes (`pxfi`) become explicit lists of (index, value)
  stores applied to a buffer `ℤ → ℝ`;
* the border line primitives (`pxdrawl` / `pxdrawr` / `pxdrawd` / `pxdrawu`)
  become lists of the raw pixel positions they pass to `pxfir`;
* the scalar-field passes (`drawField`, `drawFieldContour`) are embedded over
  `ℝ`, with JavaScript `Math.log` idealized as `Real.log` (exact real
  arithmetic stands in for IEEE doubles);
* fallible code (`writePNG`, the activity-constraint lookup of
  `drawActivityValues`) returns `Except`;
* collaborators that live outside `src/` (the grid topology queries
  `neighNeumanni` / `p2i` / `i2p`, `cellBorderPixels`, `fs.writeFileSync`)
  are taken as parameters, and concrete instantiations of them are modelled
  from the spec where needed.
-/

namespace Canvas

/-- Byte offset used by `pxfi` for an (unzoomed) coordinate `p`:
`off = (zoom*p[1]*dy + zoom*p[0])*4` with `dy = zoom*width`
(`src/src/Canvas.js` lines 134-135). -/
def pxOff (z w : ℕ) (p : ℤ × ℤ) : ℤ :=
  ((z : ℤ) * p.2 * ((z : ℤ) * (w : ℤ)) + (z : ℤ) * p.1) * 4

/-- A single store `px[k] = x` into the raw RGBA buffer, modelled as a
pointwise update of a total function `ℤ → ℝ`. -/
def updB (buf : ℤ → ℝ) (k : ℤ) (x : ℝ) : ℤ → ℝ :=
  fun n => if n = k then x else buf n

/-- Apply a sequence of stores to the buffer, in list order (later stores
win, exactly like sequential assignments to `this.px`). -/
def applyWrites (buf : ℤ → ℝ) (l : List (ℤ × ℝ)) : ℤ → ℝ :=
  l.foldl (fun b kv => updB b kv.1 kv.2) buf

/-- The stores performed by `pxfi(p, alpha)` (`src/src/Canvas.js` lines
133-144): `dy = zoom*width`, `off = (zoom*p[1]*dy + zoom*p[0])*4`, then for
`i = 0, 4, ..., < zoom*4` and `j = 0, dy*4, ..., < zoom*dy*4` it stores the
current color channels and `alpha*255` at `off+i+j .. off+i+j+3`.  The inner
loop runs `zoom` times when `dy > 0` and zero times when `dy = 0`
(condition `j < zoom*dy*4` is false at once), hence the `jmax` guard. -/
def pxfiWrites (z w : ℕ) (cr cg cb : ℝ) (p : ℤ × ℤ) (alpha : ℝ) :
    List (ℤ × ℝ) :=
  let dy : ℤ := (z : ℤ) * (w : ℤ)
  let off : ℤ := pxOff z w p
  let jmax : ℕ := if z * w = 0 then 0 else z
  (List.range z).flatMap fun ii =>
    (List.range jmax).flatMap fun jj =>
      let i : ℤ := 4 * (ii : ℤ)
      let j : ℤ := (dy * 4) * (jj : ℤ)
      [(i + j + off, cr), (i + j + off + 1, cg), (i + j + off + 2, cb),
        (i + j + off + 3, alpha * 255)]

/-- The effect of one `pxfi(p, alpha)` call on the raw buffer, with the
current `ColorState` channels passed explicitly. -/
def pxfiFun (z w : ℕ) (cr cg cb : ℝ) (p : ℤ × ℤ) (alpha : ℝ)
    (buf : ℤ → ℝ) : ℤ → ℝ :=
  applyWrites buf (pxfiWrites z w cr cg cb p alpha)

/-- Raw pixel positions passed to `pxfir` by `pxdrawl(p)`
(`src/src/Canvas.js` lines 181-185): the column `x = zoom*p[0]`,
rows `zoom*p[1] .. zoom*(p[1]+1)-1`. -/
def pxdrawlPts (z : ℕ) (p : ℤ × ℤ) : List (ℤ × ℤ) :=
  (List.range z).map fun k => ((z : ℤ) * p.1, (z : ℤ) * p.2 + (k : ℤ))

/-- Raw pixel positions of `pxdrawr(p)` (lines 189-193): the column
`x = zoom*(p[0]+1)`, same rows. -/
def pxdrawrPts (z : ℕ) (p : ℤ × ℤ) : List (ℤ × ℤ) :=
  (List.range z).map fun k => ((z : ℤ) * (p.1 + 1), (z : ℤ) * p.2 + (k : ℤ))

/-- Raw pixel positions of `pxdrawd(p)` (lines 196-200): the row
`y = zoom*(p[1]+1)`, columns `zoom*p[0] .. zoom*(p[0]+1)-1`. -/
def pxdrawdPts (z : ℕ) (p : ℤ × ℤ) : List (ℤ × ℤ) :=
  (List.range z).map fun k => ((z : ℤ) * p.1 + (k : ℤ), (z : ℤ) * (p.2 + 1))

/-- Raw pixel positions of `pxdrawu(p)` (lines 203-207): the row
`y = zoom*p[1]`, same columns. -/
def pxdrawuPts (z : ℕ) (p : ℤ × ℤ) : List (ℤ × ℤ) :=
  (List.range z).map fun k => ((z : ℤ) * p.1 + (k : ℤ), (z : ℤ) * p.2)

/-- `p2pdraw(p)` (`src/src/Canvas.js` lines 247-255): for each dimension with
a nonzero wrap, replace the coordinate by `p[dim] % wrap[dim]`.  JavaScript
`%` is the truncating remainder, i.e. `Int.tmod`.  The embedded points are
2-dimensional, so only the first two wrap entries matter. -/
def p2pdraw (wrap p : ℤ × ℤ) : ℤ × ℤ :=
  ((if wrap.1 ≠ 0 then Int.tmod p.1 wrap.1 else p.1),
    (if wrap.2 ≠ 0 then Int.tmod p.2 wrap.2 else p.2))

/-- The side lines drawn for one border pixel by `drawCellBorders`
(`src/src/Canvas.js` lines 391-408): look up the label of the (already
wrapped) pixel and of its four axis neighbours with `this.C.pixt`, and draw
the left/right/down/up edge for every side whose label differs.  The labels
are read at `pdraw` because `p2pdraw` mutates the coordinate array in place
before the `pixt` lookups. -/
def borderSidesPts (z : ℕ) (pixt : ℤ × ℤ → ℤ) (pdraw : ℤ × ℤ) :
    List (ℤ × ℤ) :=
  let pc := pixt (pdraw.1, pdraw.2)
  let pr := pixt (pdraw.1 + 1, pdraw.2)
  let pl := pixt (pdraw.1 - 1, pdraw.2)
  let pd := pixt (pdraw.1, pdraw.2 + 1)
  let pu := pixt (pdraw.1, pdraw.2 - 1)
  (if pc ≠ pl then pxdrawlPts z pdraw else []) ++
    (if pc ≠ pr then pxdrawrPts z pdraw else []) ++
    (if pc ≠ pd then pxdrawdPts z pdraw else []) ++
    (if pc ≠ pu then pxdrawuPts z pdraw else [])

/-- All raw pixel positions drawn by `drawCellBorders(kind, col)`
(`src/src/Canvas.js` lines 380-413).  The loop runs over
`this.C.cellBorderPixels()` (an external collaborator, passed here as the
list `borderPixels` of (coordinate, cellid) pairs); a pixel is processed
when `kind < 0 || this.C.cellKind(x[1]) == kind`. -/
def drawCellBordersPts (z : ℕ) (wrap : ℤ × ℤ) (pixt : ℤ × ℤ → ℤ)
    (cellKind : ℤ → ℤ) (kind : ℤ) (borderPixels : List ((ℤ × ℤ) × ℤ)) :
    List (ℤ × ℤ) :=
  borderPixels.flatMap fun x =>
    if kind < 0 ∨ cellKind x.2 = kind then
      borderSidesPts z pixt (p2pdraw wrap x.1)
    else []

/-- The effect of `drawCells(kind, col)` with a constant color
(`src/src/Canvas.js` lines 522-555) on the raw buffer: for every entry of
the `PixelsByCell` stat whose kind passes the filter, every owned coordinate
is handed to `pxfi(cp)` (default `alpha = 1`) exactly as supplied — no wrap
reduction is applied on this path.  A color function argument would only
change the channel values of each store, never the store positions. -/
def drawCellsBuf (z w : ℕ) (cr cg cb : ℝ) (kind : ℤ) (cellKind : ℤ → ℤ)
    (cellpixelsbyid : List (ℤ × List (ℤ × ℤ))) (buf : ℤ → ℝ) : ℤ → ℝ :=
  cellpixelsbyid.foldl
    (fun b entry =>
      if kind < 0 ∨ cellKind entry.1 = kind then
        entry.2.foldl (fun b2 cp => pxfiFun z w cr cg cb cp 1 b2) b
      else b)
    buf

/-- Value of a single hexadecimal digit, as computed by JavaScript
`parseInt(-, 16)` on a valid digit. -/
def hexDigit (c : Char) : ℕ :=
  if '0' ≤ c ∧ c ≤ '9' then c.toNat - 48
  else if 'a' ≤ c ∧ c ≤ 'f' then c.toNat - 87
  else if 'A' ≤ c ∧ c ≤ 'F' then c.toNat - 55
  else 0

/-- `parseInt(hex.substr(start, 2), 16)` for a valid hex color string. -/
def parseHex2 (s : String) (start : ℕ) : ℕ :=
  ((s.data.drop start).take 2).foldl (fun a c => 16 * a + hexDigit c) 0

/-- The mutable state of the canvas that `col` and `clear` touch: the
drawing context's fill style and the three raw channel values `col_r`,
`col_g`, `col_b` used by every raw pixel write. -/
structure CanvasState where
  fillStyle : String
  col_r : ℝ
  col_g : ℝ
  col_b : ℝ

/-- `col(hex)` (`src/src/Canvas.js` lines 212-220): set the context fill
style to `"#" + hex` and parse the three channel bytes from the hex string. -/
def col (hex : String) (st : CanvasState) : CanvasState :=
  { st with
    fillStyle := "#" ++ hex
    col_r := (parseHex2 hex 0 : ℝ)
    col_g := (parseHex2 hex 2 : ℝ)
    col_b := (parseHex2 hex 4 : ℝ) }

/-- `clear(col)` (`src/src/Canvas.js` lines 228-232): default the argument
to black when falsy (the empty string is the falsy string), set the context
fill style and fill the whole canvas through the context.  It never touches
`col_r` / `col_g` / `col_b` and never writes `this.px`. -/
def clear (c : String) (st : CanvasState) : CanvasState :=
  { st with fillStyle := "#" ++ (if c = "" then "000000" else c) }

/-- The error object thrown by `fs.writeFileSync`, reduced to the only field
`writePNG` inspects. -/
structure JsError where
  code : String
deriving DecidableEq

/-- `writePNG(fname)` (`src/src/Canvas.js` lines 581-594).  The underlying
`fs.writeFileSync` call is external; its outcome is passed in as
`writeResult`.  The `catch` block rethrows a message string (containing the
file name) when `err.code === "ENOENT"`, and otherwise falls through the
`catch` without rethrowing, so the function returns normally. -/
def writePNG (fname : String) (writeResult : Except JsError Unit) :
    Except String Unit :=
  match writeResult with
  | Except.ok _ => Except.ok ()
  | Except.error err =>
    if err.code = "ENOENT" then
      Except.error ("Canvas.writePNG: cannot write to file " ++ fname ++
        ", are you sure the directory exists?")
    else
      Except.ok ()

/-- An entry of `this.C.soft_constraints`, reduced to the only capability
`drawActivityValues` tests: whether the object is an `ActivityConstraint` or
`ActivityMultiBackground` instance. -/
structure SoftConstraint where
  isActivity : Bool
deriving DecidableEq

/-- The search loop of `drawActivityValues` (`src/src/Canvas.js` lines
430-436): walk `soft_constraints` in order and keep the first entry that is
an activity constraint (`A = c; break`). -/
def findActivityConstraint : List SoftConstraint → Option SoftConstraint
  | [] => none
  | c :: rest => if c.isActivity then some c else findActivityConstraint rest

/-- The message thrown by `drawActivityValues` when no provider is found
(`src/src/Canvas.js` line 438). -/
def activityLookupMessage : String := "Cannot find activity values to draw!"

/-- Provider selection of `drawActivityValues(kind, A, col)`
(`src/src/Canvas.js` lines 429-439): if `A` is not supplied, search
`soft_constraints` for the first activity constraint, and throw if none was
found and none was supplied. -/
def selectActivityConstraint (given : Option SoftConstraint)
    (soft_constraints : List SoftConstraint) : Except String SoftConstraint :=
  match given with
  | some A => Except.ok A
  | none =>
    match findActivityConstraint soft_constraints with
    | some A => Except.ok A
    | none => Except.error activityLookupMessage

/-- A grid object as consumed by the field-drawing methods: `extents`,
value lookup `pixt`, and the topology queries `p2i` / `i2p` /
`neighNeumanni` (the latter three live in `Grid2D`, outside `src/`, and are
taken as opaque data here). -/
structure GridModel where
  extents : ℕ × ℕ
  pixt : ℕ × ℕ → ℝ
  p2i : ℕ × ℕ → ℕ
  i2p : ℕ → ℕ × ℕ
  neighNeumanni : ℕ → List ℕ

/-- The per-cell value transform `Math.log(0.1 + v)` used by `drawField`
and `drawFieldContour`. -/
noncomputable def logt (v : ℝ) : ℝ := Real.log (0.1 + v)

/-- The cell coordinates visited by the nested loops
`for i < extents[0] { for j < extents[1] { ... } }`, in visit order. -/
def gridCoords (w h : ℕ) : List (ℕ × ℕ) :=
  (List.range w).flatMap fun i => (List.range h).map fun j => (i, j)

open Classical in
/-- The running-maximum accumulator `if (maxval < p) { maxval = p }`
folded over a list of cells. -/
noncomputable def foldMaxAux {α : Type} (g : α → ℝ) (init : ℝ)
    (l : List α) : ℝ :=
  l.foldl (fun m x => if m < g x then g x else m) init

open Classical in
/-- The running-minimum accumulator `if (minval > p) { minval = p }`
folded over a list of cells. -/
noncomputable def foldMinAux {α : Type} (g : α → ℝ) (init : ℝ)
    (l : List α) : ℝ :=
  l.foldl (fun m x => if m > g x then g x else m) init

/-- `maxval` as computed by the first pass of `drawField` and
`drawFieldContour` (`src/src/Canvas.js` lines 270-278 and 307-319):
starting from `0`, the maximum of `log(0.1 + pixt(p))` over the grid. -/
noncomputable def fieldMaxval (cc : GridModel) : ℝ :=
  foldMaxAux (fun p => logt (cc.pixt p)) 0
    (gridCoords cc.extents.1 cc.extents.2)

/-- `minval` as computed by `drawFieldContour` (lines 308-318): starting
from `log(0.1)`, the minimum of `log(0.1 + pixt(p))` over the grid. -/
noncomputable def fieldMinval (cc : GridModel) : ℝ :=
  foldMinAux (fun p => logt (cc.pixt p)) (Real.log 0.1)
    (gridCoords cc.extents.1 cc.extents.2)

/-- The alpha value `drawField` passes to `pxfi` for cell `p` in its second
pass (`src/src/Canvas.js` line 285): `log(0.1 + pixt(p)) / maxval`. -/
noncomputable def drawFieldAlpha (cc : GridModel) (p : ℕ × ℕ) : ℝ :=
  logt (cc.pixt p) / fieldMaxval cc

open Classical in
/-- The contour levels visited by the loop
`for (v = minval; v < maxval; v += step)` with
`step = (maxval - minval)/nsteps` (`src/src/Canvas.js` lines 327-328),
under exact real arithmetic.  When `minval < maxval` and `nsteps ≥ 1` the
step is positive and `minval + k*step < maxval` holds exactly for
`k < nsteps`, so the loop visits `minval + k*step` for `k = 0, ..,
nsteps-1`; when `minval ≥ maxval` the loop body never runs; for
`nsteps = 0` JavaScript computes `step = Infinity` and the loop visits only
`minval`. -/
noncomputable def contourLevels (cc : GridModel) (nsteps : ℕ) : List ℝ :=
  if fieldMinval cc < fieldMaxval cc then
    if nsteps = 0 then [fieldMinval cc]
    else
      (List.range nsteps).map fun k =>
        fieldMinval cc +
          (k : ℝ) * ((fieldMaxval cc - fieldMinval cc) / (nsteps : ℝ))
  else []

/-- Cell `p` is painted by `drawFieldContour(cc, nsteps, col)`
(`src/src/Canvas.js` lines 302-366).  The code keeps two monotone flags
`below` / `above` over the neighbour loop and paints (then breaks) the first
time both are set, so a cell is painted at level `v` exactly when its value
is within `0.05*maxval` of `v` and among the von Neumann neighbours —
enumerated on the canvas' constructor grid `selfg` via
`this.grid.neighNeumanni(this.grid.p2i([i,j]))`, with values read from the
supplied grid `cc` at `this.grid.i2p(n)` — at least one value is strictly
below `v` and at least one is `≥ v`. -/
def drawFieldContourMarked (selfg cc : GridModel) (nsteps : ℕ)
    (p : ℕ × ℕ) : Prop :=
  p.1 < cc.extents.1 ∧ p.2 < cc.extents.2 ∧
    ∃ v ∈ contourLevels cc nsteps,
      |v - logt (cc.pixt p)| < 0.05 * fieldMaxval cc ∧
      (∃ n ∈ selfg.neighNeumanni (selfg.p2i p),
        logt (cc.pixt (selfg.i2p n)) < v) ∧
      (∃ n ∈ selfg.neighNeumanni (selfg.p2i p),
        v ≤ logt (cc.pixt (selfg.i2p n)))

/-! ### Concrete scenario data

Concrete label grids, border pixel sets and field grids used to settle the
claims on explicit inputs.  Grid-topology collaborators (`cellBorderPixels`,
`neighNeumanni`, `p2i`, `i2p`) live outside `src/` and are modelled from the
spec where they are load-bearing. -/

/-- A label grid with two 4-adjacent non-background entities: label 1 at
(1,0), label 2 at (2,0), background 0 elsewhere. -/
def labelTwoCells : ℤ × ℤ → ℤ := fun q =>
  if q = (1, 0) then 1 else if q = (2, 0) then 2 else 0

/-- A label grid with a single non-background entity: label 1 at (1,0). -/
def labelOneCell : ℤ × ℤ → ℤ := fun q => if q = (1, 0) then 1 else 0

/-- Modelled from the spec: `cellBorderPixels()` (external to `src/`) yields
the (coordinate, entityId) pairs of non-background pixels 4-adjacent to a
differently labeled pixel.  For `labelTwoCells` these are exactly the two
entity pixels. -/
def borderPixelsTwoCells : List ((ℤ × ℤ) × ℤ) := [((1, 0), 1), ((2, 0), 2)]

/-- Modelled from the spec: the border pixel set of `labelOneCell`. -/
def borderPixelsOneCell : List ((ℤ × ℤ) × ℤ) := [((1, 0), 1)]

/-- All raw pixels drawn by `drawCellBorders(-1)` at zoom 2, no wrap, on the
two-entity grid. -/
def bordersTwoCells : List (ℤ × ℤ) :=
  drawCellBordersPts 2 (0, 0) labelTwoCells (fun _ => 0) (-1)
    borderPixelsTwoCells

/-- All raw pixels drawn by `drawCellBorders(-1)` at zoom 2, no wrap, on the
one-entity grid. -/
def bordersOneCell : List (ℤ × ℤ) :=
  drawCellBordersPts 2 (0, 0) labelOneCell (fun _ => 0) (-1)
    borderPixelsOneCell

/-- The raw pixels flanking the shared vertical edge between grid cells
(1,0) and (2,0) at zoom 2: the two columns x ∈ {3,4} next to the edge,
restricted to the middle row y = 1 (row 0 also carries the cells' own
horizontal up-edges, so it is left out of the vertical-boundary window).
A double-thickness boundary line would occupy both columns of this window;
a single-thickness line occupies one. -/
def sharedEdgeWindow (q : ℤ × ℤ) : Bool :=
  (q.1 == 3 || q.1 == 4) && q.2 == 1

/-- The all-zeroes raw buffer. -/
def zeroBuf : ℤ → ℝ := fun _ => 0

/-- The field grid of the C3 scenario: two cells with raw values 0 and 10.
Topology fields are irrelevant to `drawField` and set to trivial defaults. -/
def gridTwoVals : GridModel where
  extents := (2, 1)
  pixt := fun p => if p.1 = 0 then 0 else 10
  p2i := fun p => p.1
  i2p := fun n => (n, 0)
  neighNeumanni := fun _ => []

/-- A non-empty all-zero field grid (1×1). -/
def gridAllZero : GridModel where
  extents := (1, 1)
  pixt := fun _ => 0
  p2i := fun p => p.1
  i2p := fun n => (n, 0)
  neighNeumanni := fun _ => []

/-- A 1×1 grid with the single value 1. -/
def gridUnitOne : GridModel where
  extents := (1, 1)
  pixt := fun _ => 1
  p2i := fun p => p.1
  i2p := fun n => (n, 0)
  neighNeumanni := fun _ => []

/-- The 1D step field of the C2 scenario: a 10×1 grid with value 0 for
x < 5 and value 100 for x ≥ 5.  The topology fields are modelled from the
spec (`Grid2D.p2i` / `i2p` / `neighNeumanni` live outside `src/`): row-major
index conversion and in-bounds 4-connected neighbour enumeration.  The C2
refutation does not depend on this choice — it only uses that every
neighbour value is a value of `gridStep.pixt`. -/
def gridStep : GridModel where
  extents := (10, 1)
  pixt := fun p => if p.1 < 5 then 0 else 100
  p2i := fun p => p.1
  i2p := fun n => (n, 0)
  neighNeumanni := fun n =>
    (if n = 0 then [] else [n - 1]) ++ (if n + 1 < 10 then [n + 1] else [])

/-- The supplied grid of the C9 scenario: a 3×1 field whose transformed
values are exactly -9, -2 and 5 (the raw values are `exp c - 0.1`). -/
noncomputable def gridMix : GridModel where
  extents := (3, 1)
  pixt := fun p =>
    if p.1 = 0 then Real.exp (-9) - 0.1
    else if p.1 = 1 then Real.exp (-2) - 0.1
    else Real.exp 5 - 0.1
  p2i := fun p => p.1
  i2p := fun n => (n, 0)
  neighNeumanni := fun n => [n - 1, n + 1]

/-- `gridMix` with the same values and extents but different topology
fields: used to witness that the supplied grid's topology is ignored. -/
noncomputable def gridMixAlt : GridModel :=
  { gridMix with p2i := fun p => p.1 + 7, neighNeumanni := fun _ => [] }

/-- A constructor grid whose neighbour enumeration yields both horizontal
neighbours (modelled from the spec's 4-connected neighbour interface; its
own values are never read by `drawFieldContour(cc)`). -/
def topoBoth : GridModel where
  extents := (3, 1)
  pixt := fun _ => 0
  p2i := fun p => p.1
  i2p := fun n => (n, 0)
  neighNeumanni := fun n => [n - 1, n + 1]

/-- A constructor grid like `topoBoth` whose neighbour enumeration yields
only the right neighbour. -/
def topoRight : GridModel :=
  { topoBoth with neighNeumanni := fun n => [n + 1] }

/-! ### Helper lemmas about the running max/min accumulators -/

theorem foldMaxAux_init_le {α : Type} (g : α → ℝ) (init : ℝ) (l : List α) :
    init ≤ foldMaxAux g init l := by
  induction l generalizing init with
  | nil => exact le_refl _
  | cons x t ih =>
    simp only [foldMaxAux, List.foldl_cons]
    refine le_trans ?_ (ih _)
    split
    · exact le_of_lt (by assumption)
    · exact le_refl _

theorem le_foldMaxAux_of_mem {α : Type} (g : α → ℝ) {init : ℝ} {l : List α}
    {x : α} (hx : x ∈ l) : g x ≤ foldMaxAux g init l := by
  induction l generalizing init with
  | nil => cases hx
  | cons y t ih =>
    rcases List.mem_cons.mp hx with h | h
    · subst h
      simp only [foldMaxAux, List.foldl_cons]
      refine le_trans ?_ (foldMaxAux_init_le g _ t)
      split
      · exact le_refl _
      · exact le_of_not_lt (by assumption)
    · exact ih h

theorem foldMaxAux_le {α : Type} (g : α → ℝ) {c init : ℝ} {l : List α}
    (h0 : init ≤ c) (h : ∀ x ∈ l, g x ≤ c) : foldMaxAux g init l ≤ c := by
  induction l generalizing init with
  | nil => exact h0
  | cons x t ih =>
    simp only [foldMaxAux, List.foldl_cons]
    refine ih ?_ fun y hy => h y (List.mem_cons_of_mem _ hy)
    split
    · exact h x (List.mem_cons_self _ _)
    · exact h0

theorem foldMaxAux_eq {α : Type} (g : α → ℝ) {c init : ℝ} {l : List α}
    (h0 : init ≤ c) (hb : ∀ x ∈ l, g x ≤ c) (hm : ∃ x ∈ l, g x = c) :
    foldMaxAux g init l = c := by
  obtain ⟨x, hx, he⟩ := hm
  exact le_antisymm (foldMaxAux_le g h0 hb) (he ▸ le_foldMaxAux_of_mem g hx)

theorem foldMaxAux_eq_init {α : Type} (g : α → ℝ) {init : ℝ} {l : List α}
    (h : ∀ x ∈ l, g x ≤ init) : foldMaxAux g init l = init := by
  induction l with
  | nil => rfl
  | cons x t ih =>
    simp only [foldMaxAux, List.foldl_cons]
    rw [if_neg (not_lt.mpr (h x (List.mem_cons_self _ _)))]
    exact ih fun y hy => h y (List.mem_cons_of_mem _ hy)

theorem foldMinAux_ge {α : Type} (g : α → ℝ) {c init : ℝ} {l : List α}
    (h0 : c ≤ init) (h : ∀ x ∈ l, c ≤ g x) : c ≤ foldMinAux g init l := by
  induction l generalizing init with
  | nil => exact h0
  | cons x t ih =>
    simp only [foldMinAux, List.foldl_cons]
    refine ih ?_ fun y hy => h y (List.mem_cons_of_mem _ hy)
    split
    · exact h x (List.mem_cons_self _ _)
    · exact h0

theorem foldMinAux_le_init {α : Type} (g : α → ℝ) (init : ℝ) (l : List α) :
    foldMinAux g init l ≤ init := by
  induction l generalizing init with
  | nil => exact le_refl _
  | cons x t ih =>
    simp only [foldMinAux, List.foldl_cons]
    refine le_trans (ih _) ?_
    split
    · exact le_of_lt (by assumption)
    · exact le_refl _

theorem foldMinAux_le_of_mem {α : Type} (g : α → ℝ) {init : ℝ} {l : List α}
    {x : α} (hx : x ∈ l) : foldMinAux g init l ≤ g x := by
  induction l generalizing init with
  | nil => cases hx
  | cons y t ih =>
    rcases List.mem_cons.mp hx with h | h
    · subst h
      simp only [foldMinAux, List.foldl_cons]
      refine le_trans (foldMinAux_le_init g _ t) ?_
      split
      · exact le_refl _
      · exact le_of_not_lt (by assumption)
    · exact ih h

theorem foldMinAux_eq {α : Type} (g : α → ℝ) {c init : ℝ} {l : List α}
    (h0 : c ≤ init) (hb : ∀ x ∈ l, c ≤ g x) (hm : ∃ x ∈ l, g x = c) :
    foldMinAux g init l = c := by
  obtain ⟨x, hx, he⟩ := hm
  exact le_antisymm (he ▸ foldMinAux_le_of_mem g hx) (foldMinAux_ge g h0 hb)

theorem foldMinAux_eq_init {α : Type} (g : α → ℝ) {init : ℝ} {l : List α}
    (h : ∀ x ∈ l, init ≤ g x) : foldMinAux g init l = init := by
  induction l with
  | nil => rfl
  | cons x t ih =>
    simp only [foldMinAux, List.foldl_cons]
    rw [if_neg (not_lt.mpr (h x (List.mem_cons_self _ _)))]
    exact ih fun y hy => h y (List.mem_cons_of_mem _ hy)

/-! ### Helper lemmas about sequences of raw buffer stores -/

theorem applyWrites_eq_of_not_mem {l : List (ℤ × ℝ)} {n : ℤ}
    (h : n ∉ l.map Prod.fst) (buf : ℤ → ℝ) : applyWrites buf l n = buf n := by
  induction l generalizing buf with
  | nil => rfl
  | cons kv t ih =>
    simp only [List.map_cons, List.mem_cons, not_or] at h
    simp only [applyWrites, List.foldl_cons] at ih ⊢
    rw [ih h.2]
    exact if_neg h.1

theorem applyWrites_congr_of_mem {l : List (ℤ × ℝ)} {n : ℤ}
    (h : n ∈ l.map Prod.fst) (buf buf' : ℤ → ℝ) :
    applyWrites buf l n = applyWrites buf' l n := by
  induction l generalizing buf buf' with
  | nil => cases h
  | cons kv t ih =>
    by_cases ht : n ∈ t.map Prod.fst
    · exact ih ht _ _
    · have hn : n = kv.1 := by
        simp only [List.map_cons, List.mem_cons] at h
        tauto
      simp only [applyWrites, List.foldl_cons] at ih ⊢
      have e1 := applyWrites_eq_of_not_mem ht (updB buf kv.1 kv.2)
      have e2 := applyWrites_eq_of_not_mem ht (updB buf' kv.1 kv.2)
      simp only [applyWrites] at e1 e2
      rw [e1, e2]
      simp [updB, hn]

theorem keys_flatMap_congr {β : Type} (l : List β) (f g : β → List (ℤ × ℝ))
    (h : ∀ x, (f x).map Prod.fst = (g x).map Prod.fst) :
    (l.flatMap f).map Prod.fst = (l.flatMap g).map Prod.fst := by
  induction l with
  | nil => rfl
  | cons x t ih =>
    simp only [List.flatMap_cons, List.map_append, h x, ih]

theorem pxfiWrites_keys (z w : ℕ) (cr cg cb cr' cg' cb' : ℝ) (p : ℤ × ℤ)
    (a a' : ℝ) :
    (pxfiWrites z w cr cg cb p a).map Prod.fst =
      (pxfiWrites z w cr' cg' cb' p a').map Prod.fst := by
  unfold pxfiWrites
  refine keys_flatMap_congr _ _ _ fun ii => ?_
  exact keys_flatMap_congr _ _ _ fun jj => rfl

/-! ### Claim theorems -/

/-- C6 (confirmed): a raw pixel write stores `alpha*255` directly into the
alpha channel as an overwrite, not a blend.  Two `pxfi` writes applied in
sequence to the same location — with arbitrary, possibly different colors
and semi-transparent alphas — leave the buffer exactly as the second write
alone would: the writes of one call store fixed values at fixed offsets, and
both calls target the same offsets. -/
theorem pxfi_overwrite (z w : ℕ) (cr1 cg1 cb1 a1 cr2 cg2 cb2 a2 : ℝ)
    (p : ℤ × ℤ) (buf : ℤ → ℝ) :
    pxfiFun z w cr2 cg2 cb2 p a2 (pxfiFun z w cr1 cg1 cb1 p a1 buf) =
      pxfiFun z w cr2 cg2 cb2 p a2 buf := by
  funext n
  by_cases h : n ∈ (pxfiWrites z w cr2 cg2 cb2 p a2).map Prod.fst
  · exact applyWrites_congr_of_mem h _ _
  · have h1 : n ∉ (pxfiWrites z w cr1 cg1 cb1 p a1).map Prod.fst := by
      rw [pxfiWrites_keys z w cr1 cg1 cb1 cr2 cg2 cb2 p a1 a2]
      exact h
    unfold pxfiFun
    rw [applyWrites_eq_of_not_mem h, applyWrites_eq_of_not_mem h,
      applyWrites_eq_of_not_mem h1]

/-- C10 (confirmed): `clear` touches only the drawing context's fill style
and leaves the `ColorState` channel values unchanged, so a raw pixel write
performed after `clear` stores exactly the channel bytes parsed by the most
recent `col` call, whatever the clear color was. -/
theorem clear_preserves_colorstate (hex c : String) (st : CanvasState)
    (z w : ℕ) (p : ℤ × ℤ) (a : ℝ) :
    (clear c (col hex st)).col_r = (col hex st).col_r ∧
      (clear c (col hex st)).col_g = (col hex st).col_g ∧
      (clear c (col hex st)).col_b = (col hex st).col_b ∧
      pxfiWrites z w (clear c (col hex st)).col_r
          (clear c (col hex st)).col_g (clear c (col hex st)).col_b p a =
        pxfiWrites z w ((parseHex2 hex 0 : ℕ) : ℝ) ((parseHex2 hex 2 : ℕ) : ℝ)
          ((parseHex2 hex 4 : ℕ) : ℝ) p a :=
  ⟨rfl, rfl, rfl, rfl⟩

/-- C7 counterexample: a write failure whose code is not "ENOENT" is caught
by `writePNG` and silently discarded — the call returns normally instead of
propagating the error, contradicting the claim that other IO failures
propagate unchanged. -/
theorem writePNG_swallows_other_errors :
    writePNG "out.png" (Except.error ⟨"EACCES"⟩) = Except.ok () := by
  simp [writePNG]

/-- C7 (corrected): when the underlying write fails with code "ENOENT",
`writePNG` throws a message string carrying the target path; every other
failure is swallowed by the `catch` block (no rethrow), so the call
completes normally rather than propagating the error. -/
theorem writePNG_spec (fname : String) :
    writePNG fname (Except.error ⟨"ENOENT"⟩) =
        Except.error ("Canvas.writePNG: cannot write to file " ++ fname ++
          ", are you sure the directory exists?") ∧
      (∀ e : JsError, e.code ≠ "ENOENT" →
        writePNG fname (Except.error e) = Except.ok ()) ∧
      writePNG fname (Except.ok ()) = Except.ok () := by
  refine ⟨rfl, ?_, rfl⟩
  intro e he
  simp [writePNG, he]

theorem writePNG_spec_witness :
    (("EACCES" : String) ≠ "ENOENT") ∧
      writePNG "img.png" (Except.error ⟨"EACCES"⟩) = Except.ok () :=
  ⟨by decide, (writePNG_spec "img.png").2.1 ⟨"EACCES"⟩ (by decide)⟩

/-- C8 (confirmed): `drawActivityValues` called without a provider throws
the lookup message when no constraint in `soft_constraints` is an activity
constraint, and otherwise selects the first activity constraint in registry
order. -/
theorem selectActivityConstraint_spec :
    (∀ cs : List SoftConstraint, (∀ c ∈ cs, c.isActivity = false) →
        selectActivityConstraint none cs =
          Except.error activityLookupMessage) ∧
      (∀ (pre : List SoftConstraint) (c : SoftConstraint)
          (post : List SoftConstraint),
        (∀ cp ∈ pre, cp.isActivity = false) → c.isActivity = true →
        selectActivityConstraint none (pre ++ c :: post) = Except.ok c) := by
  constructor
  · intro cs h
    have hfind : findActivityConstraint cs = none := by
      induction cs with
      | nil => rfl
      | cons x t ih =>
        simp only [findActivityConstraint, h x (List.mem_cons_self _ _),
          Bool.false_eq_true, if_false]
        exact ih fun c hc => h c (List.mem_cons_of_mem _ hc)
    simp [selectActivityConstraint, hfind]
  · intro pre c post hpre hc
    have hfind : findActivityConstraint (pre ++ c :: post) = some c := by
      induction pre with
      | nil => simp [findActivityConstraint, hc]
      | cons x t ih =>
        simp only [List.cons_append, findActivityConstraint,
          hpre x (List.mem_cons_self _ _), Bool.false_eq_true, if_false]
        exact ih fun cp hcp => hpre cp (List.mem_cons_of_mem _ hcp)
    simp [selectActivityConstraint, hfind]

theorem selectActivityConstraint_spec_witness :
    selectActivityConstraint none [⟨false⟩] =
        Except.error activityLookupMessage ∧
      selectActivityConstraint none ([⟨false⟩] ++ ⟨true⟩ :: [⟨true⟩]) =
        Except.ok ⟨true⟩ :=
  ⟨selectActivityConstraint_spec.1 [⟨false⟩] (by decide),
    selectActivityConstraint_spec.2 [⟨false⟩] ⟨true⟩ [⟨true⟩] (by decide) rfl⟩

/-- C1 counterexample: the claim predicts that the boundary between the two
non-background entities of `labelTwoCells` is double thickness (each side's
edge a separate pixel column) while the boundary of `labelOneCell` against
background is single thickness.  In fact, within the two-column window
flanking the shared vertical edge, the drawn pixel sets of the two scenarios
are identical and occupy a single column — a single-thickness line in both
cases, because `pxdrawr` of the left cell and `pxdrawl` of the right cell
write the very same raw pixels. -/
theorem drawCellBorders_not_double_thickness :
    (bordersTwoCells.filter sharedEdgeWindow).toFinset =
        (bordersOneCell.filter sharedEdgeWindow).toFinset ∧
      (bordersTwoCells.filter sharedEdgeWindow).toFinset.card = 1 := by
  constructor
  · decide
  · decide

/-- C1 (corrected): each side of an internal boundary does independently
draw its own edge, but the two edges land on exactly the same raw pixels —
`pxdrawr(p)` writes the column `zoom*(p[0]+1)`, which is also the column
written by `pxdrawl` of the right neighbour, and `pxdrawd(p)` writes the row
written by `pxdrawu` of the lower neighbour.  Hence a boundary between two
non-background entities produces a single-thickness line (merely drawn from
both sides), exactly as thick as a boundary against background drawn only
from the foreground side: on the concrete scenarios both boundary windows
contain exactly the single boundary-column pixel (4,1). -/
theorem drawCellBorders_single_thickness :
    (∀ (z : ℕ) (p : ℤ × ℤ), pxdrawrPts z p = pxdrawlPts z (p.1 + 1, p.2)) ∧
      (∀ (z : ℕ) (p : ℤ × ℤ), pxdrawdPts z p = pxdrawuPts z (p.1, p.2 + 1)) ∧
      (bordersTwoCells.filter sharedEdgeWindow).toFinset =
        {((4 : ℤ), (1 : ℤ))} ∧
      (bordersOneCell.filter sharedEdgeWindow).toFinset =
        {((4 : ℤ), (1 : ℤ))} := by
  refine ⟨fun z p => rfl, fun z p => rfl, by decide, by decide⟩

/-- C5 counterexample: a `drawCells` draw at coordinate (201,5), with
width 200 and zoom 1 (exactly the `wrap=[200,0]` display situation of the
claim), does not write buffer position (1,5).  `drawCells` hands the
coordinate to `pxfi` without any wrap reduction, and the raw offset
arithmetic makes the bytes land at the offset of position (1,6): that
position receives the color while position (1,5) stays untouched. -/
theorem drawCells_no_wrap_counterexample :
    drawCellsBuf 1 200 255 0 0 (-1) (fun _ => 1) [(1, [(201, 5)])] zeroBuf
        (pxOff 1 200 (1, 6)) = 255 ∧
      drawCellsBuf 1 200 255 0 0 (-1) (fun _ => 1) [(1, [(201, 5)])] zeroBuf
        (pxOff 1 200 (1, 5)) = 0 := by
  have hk : ((-1 : ℤ) < 0 ∨ (fun _ : ℤ => (1 : ℤ)) 1 = -1) := Or.inl (by norm_num)
  constructor <;>
    · norm_num [drawCellsBuf, List.foldl_cons, List.foldl_nil, if_pos hk,
        pxfiFun, pxfiWrites, pxOff, applyWrites, List.range_succ,
        List.flatMap_cons, List.flatMap_nil, updB, zeroBuf]

/-- C5 (corrected): the modulo wrap reduction is performed by `p2pdraw`,
which only the `drawCellBorders` path applies — there a border pixel at
(201,5) with `wrap=[200,0]` is first wrapped to (1,5) and its edges are
drawn around that block.  The `drawCells` path performs no wrap reduction:
the raw offset of an unwrapped (201,5) write coincides with the offset of
buffer position (1,6) (row-major aliasing), not with that of (1,5). -/
theorem wrap_reduction_only_in_drawCellBorders :
    p2pdraw (200, 0) (201, 5) = (1, 5) ∧
      drawCellBordersPts 1 (200, 0) (fun q => if q = (1, 5) then 1 else 0)
          (fun _ => 0) (-1) [((201, 5), 1)] =
        [(1, 5), (2, 5), (1, 6), (1, 5)] ∧
      pxOff 1 200 (201, 5) = pxOff 1 200 (1, 6) ∧
      pxOff 1 200 (201, 5) ≠ pxOff 1 200 (1, 5) := by
  refine ⟨by decide, by decide, by decide, by decide⟩

theorem gridTwoVals_logt_le (p : ℕ × ℕ) :
    logt (gridTwoVals.pixt p) ≤ Real.log 10.1 := by
  show logt (if p.1 = 0 then (0 : ℝ) else 10) ≤ Real.log 10.1
  unfold logt
  split
  · rw [add_zero]
    exact (Real.log_le_log_iff (by norm_num) (by norm_num)).mpr (by norm_num)
  · norm_num

theorem fieldMaxval_gridTwoVals :
    fieldMaxval gridTwoVals = Real.log 10.1 := by
  unfold fieldMaxval
  refine foldMaxAux_eq _ (Real.log_pos (by norm_num)).le
    (fun x _ => gridTwoVals_logt_le x) ⟨(1, 0), by decide, ?_⟩
  show logt (gridTwoVals.pixt (1, 0)) = Real.log 10.1
  unfold logt gridTwoVals
  norm_num

/-- C3 (confirmed): on the two-cell grid with raw values 0 and 10, the
first pass of `drawField` computes `maxval = log(0.1+10) = log 10.1`, and
the second pass assigns the max-value cell alpha
`log(10.1)/log(10.1) = 1` and the zero-value cell alpha exactly
`log(0.1)/log(10.1)`. -/
theorem drawField_two_values_alphas :
    drawFieldAlpha gridTwoVals (1, 0) = 1 ∧
      drawFieldAlpha gridTwoVals (0, 0) = Real.log 0.1 / Real.log 10.1 := by
  have h1 : logt (gridTwoVals.pixt (1, 0)) = Real.log 10.1 := by
    unfold logt gridTwoVals
    norm_num
  have h0 : logt (gridTwoVals.pixt (0, 0)) = Real.log 0.1 := by
    unfold logt gridTwoVals
    norm_num
  refine ⟨?_, ?_⟩
  · unfold drawFieldAlpha
    rw [fieldMaxval_gridTwoVals, h1,
      div_self (ne_of_gt (Real.log_pos (by norm_num)))]
  · unfold drawFieldAlpha
    rw [fieldMaxval_gridTwoVals, h0]

/-- C4 counterexample: a non-empty grid of non-negative values on which the
claim fails.  On the all-zero 1×1 grid every transformed value is
`log 0.1 < 0`, so the running maximum keeps its initial value `0` and the
alpha of the (maximal) cell is `log(0.1)/0` — not `1` (JavaScript evaluates
it to `-Infinity`; under the real-division convention it is `0`). -/
theorem drawField_allzero_alpha_ne_one :
    drawFieldAlpha gridAllZero (0, 0) ≠ 1 := by
  have hmax : fieldMaxval gridAllZero = 0 := by
    unfold fieldMaxval
    refine foldMaxAux_eq_init _ fun x _ => ?_
    calc logt (gridAllZero.pixt x) = Real.log 0.1 := by
          unfold logt gridAllZero
          norm_num
      _ ≤ 0 := (Real.log_neg (by norm_num) (by norm_num)).le
  unfold drawFieldAlpha
  rw [hmax, div_zero]
  norm_num

/-- C4 (corrected): on a grid of non-negative values the cell holding the
maximal value is written with alpha 1 provided that value exceeds 0.9
(equivalently, its transform `log(0.1+v)` is positive, so it survives the
`maxval`-accumulator's initial value 0); without that proviso the claim
fails (see the all-zero counterexample, where `maxval` stays 0 and the
alpha is a division by zero). -/
theorem drawField_max_cell_alpha_one (G : GridModel) (q : ℕ × ℕ)
    (hmem : q ∈ gridCoords G.extents.1 G.extents.2)
    (hnn : ∀ p ∈ gridCoords G.extents.1 G.extents.2, 0 ≤ G.pixt p)
    (hmax : ∀ p ∈ gridCoords G.extents.1 G.extents.2, G.pixt p ≤ G.pixt q)
    (hbig : 0.9 < G.pixt q) :
    drawFieldAlpha G q = 1 := by
  have hpos : 0 < logt (G.pixt q) := by
    unfold logt
    exact Real.log_pos (by linarith)
  have hM : fieldMaxval G = logt (G.pixt q) := by
    unfold fieldMaxval
    refine foldMaxAux_eq _ hpos.le (fun x hx => ?_) ⟨q, hmem, rfl⟩
    unfold logt
    exact (Real.log_le_log_iff (by linarith [hnn x hx]) (by linarith)).mpr
      (by linarith [hmax x hx])
  unfold drawFieldAlpha
  rw [hM, div_self (ne_of_gt hpos)]

theorem drawField_max_cell_alpha_one_witness :
    ((0, 0) ∈ gridCoords gridUnitOne.extents.1 gridUnitOne.extents.2) ∧
      (0.9 : ℝ) < gridUnitOne.pixt (0, 0) ∧
      drawFieldAlpha gridUnitOne (0, 0) = 1 :=
  ⟨by decide, by norm_num [gridUnitOne],
    drawField_max_cell_alpha_one gridUnitOne (0, 0) (by decide)
      (fun p _ => by norm_num [gridUnitOne])
      (fun p _ => le_refl _) (by norm_num [gridUnitOne])⟩

theorem gridStep_logt_ge (p : ℕ × ℕ) :
    Real.log 0.1 ≤ logt (gridStep.pixt p) := by
  show Real.log 0.1 ≤ logt (if p.1 < 5 then (0 : ℝ) else 100)
  unfold logt
  split
  · norm_num
  · exact (Real.log_le_log_iff (by norm_num) (by norm_num)).mpr (by norm_num)

theorem gridStep_logt_le (p : ℕ × ℕ) :
    logt (gridStep.pixt p) ≤ Real.log 100.1 := by
  show logt (if p.1 < 5 then (0 : ℝ) else 100) ≤ Real.log 100.1
  unfold logt
  split
  · rw [add_zero]
    exact (Real.log_le_log_iff (by norm_num) (by norm_num)).mpr (by norm_num)
  · norm_num

theorem fieldMaxval_gridStep : fieldMaxval gridStep = Real.log 100.1 := by
  unfold fieldMaxval
  refine foldMaxAux_eq _ (Real.log_pos (by norm_num)).le
    (fun x _ => gridStep_logt_le x) ⟨(5, 0), by decide, ?_⟩
  show logt (gridStep.pixt (5, 0)) = Real.log 100.1
  unfold logt gridStep
  norm_num

theorem fieldMinval_gridStep : fieldMinval gridStep = Real.log 0.1 := by
  unfold fieldMinval
  exact foldMinAux_eq_init _ fun x _ => gridStep_logt_ge x

theorem contourLevels_gridStep_one :
    contourLevels gridStep 1 = [Real.log 0.1] := by
  unfold contourLevels
  rw [fieldMinval_gridStep, fieldMaxval_gridStep,
    if_pos (Real.log_lt_log (by norm_num) (by norm_num))]
  norm_num [List.range_succ]

theorem gridStep_marks_nothing (p : ℕ × ℕ) :
    ¬ drawFieldContourMarked gridStep gridStep 1 p := by
  rintro ⟨-, -, v, hv, -, ⟨n, -, hlt⟩, -⟩
  rw [contourLevels_gridStep_one, List.mem_singleton] at hv
  subst hv
  exact absurd hlt (not_lt.mpr (gridStep_logt_ge _))

/-- C2 (corrected): on the 1D step field (value 0 for x < 5, value 100 for
x ≥ 5) `drawContours` with nsteps = 1 marks no contour pixel at all — not
the cells x = 4 and x = 5 claimed.  The single level visited by the loop is
`v = minval = log 0.1`, the global minimum of the transformed field, and the
mark condition requires a neighbour value strictly below `v`, which cannot
exist; the cells with x ≥ 5 additionally fail the `0.05*maxval` tolerance
test at that level. -/
theorem drawContours_step_field_marks_nothing (i j : ℕ) :
    ¬ drawFieldContourMarked gridStep gridStep 1 (i, j) :=
  gridStep_marks_nothing (i, j)

/-- C2 counterexample: the claim designates cell x = 4 (transformed value
`log 0.1`, right at the crossing) as a marked contour pixel, but
`drawFieldContour` does not mark it. -/
theorem drawContours_step_field_x4_unmarked :
    ¬ drawFieldContourMarked gridStep gridStep 1 (4, 0) :=
  gridStep_marks_nothing (4, 0)

theorem exp_nine_gt_ten : (10 : ℝ) < Real.exp 9 := by
  have h2 : (2 : ℝ) ≤ Real.exp 1 := by
    have h := Real.add_one_le_exp (1 : ℝ)
    linarith
  have h9 : (2 : ℝ) ^ (9 : ℕ) ≤ Real.exp 1 ^ (9 : ℕ) :=
    pow_le_pow_left₀ (by norm_num) h2 9
  have he : Real.exp 1 ^ (9 : ℕ) = Real.exp 9 := by
    rw [← Real.exp_nat_mul]
    norm_num
  calc (10 : ℝ) < 2 ^ (9 : ℕ) := by norm_num
    _ ≤ Real.exp 1 ^ (9 : ℕ) := h9
    _ = Real.exp 9 := he

theorem log_tenth_gt_neg_nine : (-9 : ℝ) < Real.log 0.1 := by
  rw [Real.lt_log_iff_exp_lt (by norm_num : (0 : ℝ) < 0.1)]
  have hp : (0 : ℝ) < Real.exp 9 := Real.exp_pos 9
  have key : (Real.exp 9)⁻¹ * Real.exp 9 = 1 := inv_mul_cancel₀ (ne_of_gt hp)
  have hmul : (Real.exp 9)⁻¹ * 10 < (Real.exp 9)⁻¹ * Real.exp 9 :=
    mul_lt_mul_of_pos_left exp_nine_gt_ten (inv_pos.mpr hp)
  have : Real.exp (-9) = (Real.exp 9)⁻¹ := by
    rw [show (-9 : ℝ) = -(9 : ℝ) by norm_num, Real.exp_neg]
  rw [this]
  nlinarith [inv_pos.mpr hp]

theorem gridMix_logt_c0 : logt (gridMix.pixt (0, 0)) = -9 := by
  show logt (Real.exp (-9) - 0.1) = -9
  unfold logt
  rw [show (0.1 : ℝ) + (Real.exp (-9) - 0.1) = Real.exp (-9) by ring,
    Real.log_exp]

theorem gridMix_logt_c1 : logt (gridMix.pixt (1, 0)) = -2 := by
  show logt (Real.exp (-2) - 0.1) = -2
  unfold logt
  rw [show (0.1 : ℝ) + (Real.exp (-2) - 0.1) = Real.exp (-2) by ring,
    Real.log_exp]

theorem gridMix_logt_c2 : logt (gridMix.pixt (2, 0)) = 5 := by
  show logt (Real.exp 5 - 0.1) = 5
  unfold logt
  rw [show (0.1 : ℝ) + (Real.exp 5 - 0.1) = Real.exp 5 by ring, Real.log_exp]

theorem gridMix_logt_ge (p : ℕ × ℕ) : (-9 : ℝ) ≤ logt (gridMix.pixt p) := by
  show (-9 : ℝ) ≤ logt (if p.1 = 0 then Real.exp (-9) - 0.1
    else if p.1 = 1 then Real.exp (-2) - 0.1 else Real.exp 5 - 0.1)
  unfold logt
  split
  · rw [show (0.1 : ℝ) + (Real.exp (-9) - 0.1) = Real.exp (-9) by ring,
      Real.log_exp]
  · split
    · rw [show (0.1 : ℝ) + (Real.exp (-2) - 0.1) = Real.exp (-2) by ring,
        Real.log_exp]
      norm_num
    · rw [show (0.1 : ℝ) + (Real.exp 5 - 0.1) = Real.exp 5 by ring,
        Real.log_exp]
      norm_num

theorem gridMix_logt_le (p : ℕ × ℕ) : logt (gridMix.pixt p) ≤ 5 := by
  show logt (if p.1 = 0 then Real.exp (-9) - 0.1
    else if p.1 = 1 then Real.exp (-2) - 0.1 else Real.exp 5 - 0.1) ≤ 5
  unfold logt
  split
  · rw [show (0.1 : ℝ) + (Real.exp (-9) - 0.1) = Real.exp (-9) by ring,
      Real.log_exp]
    norm_num
  · split
    · rw [show (0.1 : ℝ) + (Real.exp (-2) - 0.1) = Real.exp (-2) by ring,
        Real.log_exp]
      norm_num
    · rw [show (0.1 : ℝ) + (Real.exp 5 - 0.1) = Real.exp 5 by ring,
        Real.log_exp]

theorem fieldMinval_gridMix : fieldMinval gridMix = -9 := by
  unfold fieldMinval
  exact foldMinAux_eq _ log_tenth_gt_neg_nine.le (fun x _ => gridMix_logt_ge x)
    ⟨(0, 0), by decide, gridMix_logt_c0⟩

theorem fieldMaxval_gridMix : fieldMaxval gridMix = 5 := by
  unfold fieldMaxval
  exact foldMaxAux_eq _ (by norm_num) (fun x _ => gridMix_logt_le x)
    ⟨(2, 0), by decide, gridMix_logt_c2⟩

theorem contourLevels_gridMix_two : contourLevels gridMix 2 = [-9, -2] := by
  unfold contourLevels
  rw [fieldMinval_gridMix, fieldMaxval_gridMix,
    if_pos (by norm_num : (-9 : ℝ) < 5)]
  norm_num [List.range_succ]

/-- C9 (confirmed): `drawFieldContour(cc)` performs neighbour enumeration
and coordinate/index conversion on the canvas' constructor grid
(`this.grid.neighNeumanni` / `p2i` / `i2p`) and reads only cell values and
extents from the supplied grid `cc`.  First part: the marked set is
invariant under any change of `cc`'s topology fields and of the constructor
grid's value field.  Second and third parts: with the same supplied grid
`gridMix`, swapping the constructor grid's neighbour enumeration from
both-horizontal-neighbours to right-neighbour-only flips cell (1,0) from
marked to unmarked — the contour test really mixes `cc`'s values with the
constructor grid's topology. -/
theorem drawFieldContour_mixes_topologies :
    (∀ (selfg selfg2 cc cc2 : GridModel) (nsteps : ℕ) (p : ℕ × ℕ),
        selfg.p2i = selfg2.p2i → selfg.i2p = selfg2.i2p →
        selfg.neighNeumanni = selfg2.neighNeumanni →
        cc.pixt = cc2.pixt → cc.extents = cc2.extents →
        (drawFieldContourMarked selfg cc nsteps p ↔
          drawFieldContourMarked selfg2 cc2 nsteps p)) ∧
      drawFieldContourMarked topoBoth gridMix 2 (1, 0) ∧
      ¬ drawFieldContourMarked topoRight gridMix 2 (1, 0) := by
  refine ⟨?_, ?_, ?_⟩
  · intro selfg selfg2 cc cc2 nsteps p h1 h2 h3 h4 h5
    unfold drawFieldContourMarked contourLevels fieldMaxval fieldMinval
    rw [h1, h2, h3, h4, h5]
  · refine ⟨by decide, by decide, -2, ?_, ?_, ⟨0, ?_, ?_⟩, ⟨2, ?_, ?_⟩⟩
    · rw [contourLevels_gridMix_two]
      norm_num
    · rw [fieldMaxval_gridMix, gridMix_logt_c1]
      norm_num
    · decide
    · show logt (gridMix.pixt (0, 0)) < -2
      rw [gridMix_logt_c0]
      norm_num
    · decide
    · show (-2 : ℝ) ≤ logt (gridMix.pixt (2, 0))
      rw [gridMix_logt_c2]
      norm_num
  · rintro ⟨-, -, v, hv, htol, ⟨n, hn, hlt⟩, -⟩
    rw [contourLevels_gridMix_two] at hv
    rw [fieldMaxval_gridMix, gridMix_logt_c1] at htol
    have hn2 : n = 2 := by
      have hmem : n ∈ [2] := hn
      simpa using hmem
    subst hn2
    have hlt5 : (5 : ℝ) < v := by
      rw [← gridMix_logt_c2]
      exact hlt
    rcases (by simpa using hv : v = -9 ∨ v = -2) with rfl | rfl
    · norm_num at htol
    · linarith

theorem drawFieldContour_mixes_topologies_witness :
    gridMix.pixt = gridMixAlt.pixt ∧
      (drawFieldContourMarked topoBoth gridMix 2 (1, 0) ↔
        drawFieldContourMarked topoBoth gridMixAlt 2 (1, 0)) :=
  ⟨rfl, drawFieldContour_mixes_topologies.1 topoBoth topoBoth gridMix
    gridMixAlt 2 (1, 0) rfl rfl rfl rfl rfl⟩

end Canvas
